import Mathlib

/-!
Verification of the Context Retrieval and Ranking Engine

Shallow embedding of `backend/src/strategy-advisor/advisor.js` (the RAG
retrieval pipeline of the COC-Strategy-Tools repository) and proofs about it.

Modelling conventions:

* JavaScript strings are Lean `String`s; all character-level operations
  (`toLowerCase`, `includes`, `replace`, `split`, `trim`) are re-implemented
  structurally over `String.data : List Char` so that every definition
  evaluates inside the kernel.  JS `\w` and `\s` are modelled for the ASCII
  range, which covers every string literal occurring in the source.
* A corpus document (an entry of `embeddings.json`) is the structure `Doc`.
  JS objects may lack the `similarity` / `keywordScore` fields, hence these
  are `Option`-valued; `metadata.name` / `metadata.type` / `metadata.url`
  may be absent as well.
* `cosineSimilarity` in the source is floating-point arithmetic
  (`Math.sqrt`); its exact values are irrelevant to every property proved
  here, so the whole development is parameterised by an arbitrary
  similarity oracle `cos : List Rat → List Rat → Rat`, and similarity
  scores are rationals.  The external embedding service is likewise
  abstracted: the query embedding is a parameter `qe`.
* `Array.prototype.sort` with a numeric comparator is a stable sort
  (ES2019); any two stable sorts for the same total preorder coincide, so
  it is modelled by `List.insertionSort` with the corresponding relation.
* The source function `retrieveContext` mutates, in its two intent-boost branches,
  the corpus document objects themselves (it writes a `similarity` field on
  the members of `typeMatches` / `troopDocs`, which alias the corpus).
  This heap effect is made explicit by state passing: the model returns the
  retrieved documents together with the corpus as it stands after the call
  (`retrievalCorpusAfter`).  For corpora whose documents are pairwise
  distinct values this coincides with the reference semantics.
-/

set_option maxRecDepth 8000
set_option linter.unusedVariables false

/-! ## Character and string primitives -/

/-- ASCII lower-casing of one character, as JS `toLowerCase` acts on the
character data appearing in this code base. -/
def lowerChar (c : Char) : Char :=
  if 'A' ≤ c && c ≤ 'Z' then Char.ofNat (c.toNat + 32) else c

/-- JS `String.prototype.toLowerCase` (ASCII range). -/
def strLower (s : String) : String := ⟨s.data.map lowerChar⟩

/-- JS regex class `\w` = `[A-Za-z0-9_]`. -/
def isWordChar (c : Char) : Bool :=
  ('a' ≤ c && c ≤ 'z') || ('A' ≤ c && c ≤ 'Z') || ('0' ≤ c && c ≤ '9') || c = '_'

/-- JS regex class `\s` (ASCII whitespace). -/
def isSpaceChar (c : Char) : Bool :=
  c = ' ' || c = '\t' || c = '\n' || c = '\r' || c = '\x0b' || c = '\x0c'

/-- Does `pat` occur at the head of `s`?  (Auxiliary for substring search.) -/
def headMatch : List Char → List Char → Bool
  | [], _ => true
  | _ :: _, [] => false
  | a :: as, b :: bs => a == b && headMatch as bs

/-- Does `pat` occur anywhere in `s`?  (List-level substring search.) -/
def subSeq (pat : List Char) : List Char → Bool
  | [] => headMatch pat []
  | c :: cs => headMatch pat (c :: cs) || subSeq pat cs

/-- JS `String.prototype.includes`. -/
def strContains (s pat : String) : Bool := subSeq pat.data s.data

/-- Split at every character satisfying `p` (empty fragments included,
matching `String.split`; the JS `split(/\s+/)` differs from this only by
empty fragments, which every caller below filters away by a length bound). -/
def splitWhite (cs : List Char) : List String :=
  go [] cs
where
  go (acc : List Char) : List Char → List String
    | [] => [⟨acc.reverse⟩]
    | c :: cs => if isSpaceChar c then ⟨acc.reverse⟩ :: go [] cs else go (c :: acc) cs

/-- Numeric value of a decimal digit string (`parseInt(s, 10)` on an
all-digit string). -/
def digitsToNat (ds : List Char) : Nat :=
  ds.foldl (fun n c => n * 10 + (c.toNat - 48)) 0

/-- JS `String.prototype.trim` (ASCII whitespace). -/
def trimStr (s : String) : String :=
  ⟨((s.data.dropWhile isSpaceChar).reverse.dropWhile isSpaceChar).reverse⟩

/-- JS `Array.prototype.join(sep)`. -/
def joinSep (sep : String) : List String → String
  | [] => ""
  | s :: ss => ss.foldl (fun acc t => acc ++ sep ++ t) s

/-! ## The regex `/th\s*(\d+)|town\s*hall\s*(\d+)/i`

The two alternatives are attempted at each position of the (lower-cased)
subject from the left, the first alternative first; `\s*` and `\d+` are
greedy, and since `\s`, `\d` and the literal letters are pairwise disjoint
character classes no backtracking can change the outcome.  The returned
string is the digit group of the first match. -/

/-- Alternative 1: `th\s*(\d+)` anchored at the head. -/
def matchTH : List Char → Option (List Char)
  | 't' :: 'h' :: rest =>
    let afterSpaces := rest.dropWhile isSpaceChar
    let ds := afterSpaces.takeWhile Char.isDigit
    if ds.isEmpty then none else some ds
  | _ => none

/-- Alternative 2: `town\s*hall\s*(\d+)` anchored at the head. -/
def matchTownHall : List Char → Option (List Char)
  | 't' :: 'o' :: 'w' :: 'n' :: rest =>
    match rest.dropWhile isSpaceChar with
    | 'h' :: 'a' :: 'l' :: 'l' :: rest2 =>
      let afterSpaces := rest2.dropWhile isSpaceChar
      let ds := afterSpaces.takeWhile Char.isDigit
      if ds.isEmpty then none else some ds
    | _ => none
  | _ => none

/-- First match of the town-hall regex over a lower-cased character list. -/
def findTHMatch : List Char → Option (List Char)
  | [] => none
  | c :: cs =>
    match matchTH (c :: cs) with
    | some ds => some ds
    | none =>
      match matchTownHall (c :: cs) with
      | some ds => some ds
      | none => findTHMatch cs

/-- Model of `query.match(/th\s*(\d+)|town\s*hall\s*(\d+)/i)`, returning the digit
group of the first match (the `/i` flag is modelled by lower-casing, which
fixes digits and whitespace). -/
def thMatchStr (query : String) : Option (List Char) :=
  findTHMatch (strLower query).data

/-! ## Data model -/

/-- The `metadata` record of a corpus document. -/
structure Meta where
  id : String
  category : String
  name : Option String := none
  mtype : Option String := none
  url : Option String := none
deriving DecidableEq, Repr

/-- One entry of the embeddings corpus, possibly augmented with the
transient `similarity` / `keywordScore` fields that the pipeline attaches. -/
structure Doc where
  metadata : Meta
  content : String
  embedding : List Rat
  similarity : Option Rat := none
  keywordScore : Option Nat := none
deriving DecidableEq, Repr

/-- The parameter record produced by `analyzeQuery`; absent JS properties
are `none`. -/
structure Params where
  townHallLevel : Option Nat := none
  targetTH : Option Nat := none
  itemType : Option String := none
  focus : Option String := none
  attackType : Option String := none
  focusTroop : Option String := none
  purpose : Option String := none
  baseType : Option String := none
  resourceType : Option String := none
  goal : Option String := none
deriving DecidableEq, Repr

/-- Result of `analyzeQuery`. -/
structure QueryAnalysis where
  intent : String
  params : Params
deriving DecidableEq, Repr

/-- The dedup key used everywhere: `(metadata.id, metadata.category)`. -/
def keyOf (d : Doc) : String × String := (d.metadata.id, d.metadata.category)

/-- The value of the (assumed present) `similarity` field; every consumer
in the source only reads it on documents that carry it. -/
def simval (d : Doc) : Rat := d.similarity.getD 0

/-- Stable descending sort by a rational key: the model of
`arr.sort((a, b) => key(b) - key(a))` (V8 sort is stable). -/
def sortDocsBy (key : Doc → Rat) (l : List Doc) : List Doc :=
  @List.insertionSort Doc (fun a b => key b ≤ key a)
    (fun a b => Rat.instDecidableLe (key b) (key a)) l

/-- Stable descending sort by a natural-number key. -/
def sortDocsByN (key : Doc → Nat) (l : List Doc) : List Doc :=
  @List.insertionSort Doc (fun a b => key b ≤ key a)
    (fun a b => Nat.decLe (key b) (key a)) l

/-! ## `extractKeywords` (advisor.js lines 90-127) -/

/-- The stop-word set of `extractKeywords` (the source list contains
duplicates; `Set` semantics make them irrelevant). -/
def stopwords : List String :=
  ["a", "about", "an", "and", "are", "as", "at", "be", "by", "for", "from", "how",
   "i", "in", "is", "it", "of", "on", "or", "that", "the", "this", "to", "was",
   "what", "when", "where", "who", "will", "with", "the", "can", "you", "me", "my",
   "should", "would", "could", "need", "regarding", "regarding", "tell"]

/-- The domain-abbreviation allow-list. -/
def cocTerms : List String := ["th", "war", "coc"]

/-- The `for (const term of cocTerms)` loop: push `term` when the cleaned
query contains it as a substring and it is not yet a keyword. -/
def addCocTerms (cleanedQuery : String) (ks : List String) : List String → List String
  | [] => ks
  | t :: ts =>
    addCocTerms cleanedQuery
      (if strContains cleanedQuery t && !(ks.contains t) then ks ++ [t] else ks) ts

/-- Lower-case the query and strip every character that is neither `\w`
nor `\s` (the `replace` step erasing punctuation). -/
def cleanedQueryOf (query : String) : String :=
  ⟨(strLower query).data.filter (fun c => isWordChar c || isSpaceChar c)⟩

/-- Model of `extractKeywords(query)`. -/
def extractKeywords (query : String) : List String :=
  let cleanedQuery := cleanedQueryOf query
  let words := splitWhite cleanedQuery.data
  let keywords := words.filter (fun w => decide (w.length > 2) && !(stopwords.contains w))
  let keywords := addCocTerms cleanedQuery keywords cocTerms
  match thMatchStr query with
  | none => keywords
  | some thLevel =>
    if keywords.contains (⟨thLevel⟩ : String) then keywords
    else keywords ++ ["th" ++ (⟨thLevel⟩ : String), "townhall" ++ (⟨thLevel⟩ : String)]

/-! ## `findKeywordMatches` (lines 136-174) -/

/-- The per-document keyword score: +1 per keyword occurring in the content,
+2 per keyword occurring in `metadata.name`, +3 per keyword equal to
`metadata.type` (all case-insensitive; an absent JS property fails the
truthiness guard, matching `none` here). -/
def docKeywordScore (keywords : List String) (d : Doc) : Nat :=
  keywords.foldl
    (fun score keyword =>
      let score :=
        if strContains (strLower d.content) (strLower keyword) then score + 1 else score
      let score :=
        match d.metadata.name with
        | some n => if strContains (strLower n) (strLower keyword) then score + 2 else score
        | none => score
      match d.metadata.mtype with
      | some ty => if strLower ty = strLower keyword then score + 3 else score
      | none => score)
    0

/-- Model of `findKeywordMatches(keywords, embeddings, topK)`. -/
def findKeywordMatches (keywords : List String) (embeddings : List Doc)
    (topK : Nat) : List Doc :=
  let keywordScores :=
    embeddings.map (fun d => { d with keywordScore := some (docKeywordScore keywords d) })
  let matched := keywordScores.filter (fun d => 0 < d.keywordScore.getD 0)
  (sortDocsByN (fun d => d.keywordScore.getD 0) matched).take topK

/-! ## `findSimilarDocuments` (lines 183-195) -/

/-- Model of `findSimilarDocuments(queryEmbedding, embeddings, topK)`, relative to
the similarity oracle `cos` standing for `cosineSimilarity`. -/
def findSimilarDocuments (cos : List Rat → List Rat → Rat) (queryEmbedding : List Rat)
    (embeddings : List Doc) (topK : Nat) : List Doc :=
  let similarities :=
    embeddings.map (fun d => { d with similarity := some (cos queryEmbedding d.embedding) })
  (sortDocsBy simval similarities).take topK

/-! ## `applyMMR` (lines 205-247) -/

/-- The `Math.max` fold of the source inner loop: the largest similarity of
`d` to any already selected document, starting from `0`. -/
def maxSimTo (cos : List Rat → List Rat → Rat) (d : Doc) (selected : List Doc) : Rat :=
  selected.foldl (fun m s => max m (cos d.embedding s.embedding)) 0

/-- The inner `for` loop of the source keeps the first index whose score is
strictly greater than every score seen before it (`bestScore` starts at
`-Infinity`, the comparison is strict `>`), then `splice`s that index out.
`extractBest` returns that same element together with the remaining list. -/
def extractBest (score : Doc → Rat) : List Doc → Option (Doc × List Doc)
  | [] => none
  | d :: ds =>
    match extractBest score ds with
    | none => some (d, [])
    | some (b, rest) => if score b > score d then some (b, d :: rest) else some (d, ds)

/-- The `while (selected.length < topK && remaining.length > 0)` loop;
`fuel` is the number of elements still to select. -/
def mmrLoop (cos : List Rat → List Rat → Rat) (lambda : Rat) :
    Nat → List Doc → List Doc → List Doc
  | 0, selected, _ => selected
  | fuel + 1, selected, remaining =>
    match extractBest
        (fun d => lambda * simval d - (1 - lambda) * maxSimTo cos d selected) remaining with
    | none => selected
    | some (b, rest) => mmrLoop cos lambda fuel (selected ++ [b]) rest

/-- Model of `applyMMR(candidates, queryEmbedding, topK, lambda)`.  The
`queryEmbedding` parameter is, as in the source, never read. -/
def applyMMR (cos : List Rat → List Rat → Rat) (candidates : List Doc)
    (queryEmbedding : List Rat) (topK : Nat) (lambda : Rat) : List Doc :=
  if candidates.length ≤ topK then candidates
  else
    match sortDocsBy simval candidates with
    | [] => []
    | c :: rest => mmrLoop cos lambda (topK - 1) [c] rest

/-! ## `filterByTownHallLevel` (lines 255-300) -/

/-- Content test of the `exactMatches` filter. -/
def thMentionExact (t : Nat) (d : Doc) : Bool :=
  let content := strLower d.content
  strContains content ("th" ++ Nat.repr t) ||
  strContains content ("town hall " ++ Nat.repr t) ||
  strContains content ("townhall " ++ Nat.repr t) ||
  strContains content ("th " ++ Nat.repr t)

/-- Content test of the `nearbyMatches` filter (tier ± 1). -/
def thMentionNearby (t : Nat) (d : Doc) : Bool :=
  let content := strLower d.content
  strContains content ("th" ++ Nat.repr (t - 1)) ||
  strContains content ("th" ++ Nat.repr (t + 1)) ||
  strContains content ("town hall " ++ Nat.repr (t - 1)) ||
  strContains content ("town hall " ++ Nat.repr (t + 1))

/-- The push-if-key-absent merge loop used both by
`filterByTownHallLevel` (combining exact and nearby matches) and by
`retrieveContext` (combining semantic, keyword and boost results):
append each element of the second list whose `(id, category)` key is not
already present. -/
def mergeDedup (acc : List Doc) : List Doc → List Doc
  | [] => acc
  | m :: ms =>
    if acc.any (fun d => decide (keyOf d = keyOf m)) then mergeDedup acc ms
    else mergeDedup (acc ++ [m]) ms

/-- The `exactMatches` list. -/
def exactTHMatches (t : Nat) (embeddings : List Doc) : List Doc :=
  embeddings.filter (thMentionExact t)

/-- The deduplicated union of exact and nearby matches. -/
def combinedTHMatches (t : Nat) (embeddings : List Doc) : List Doc :=
  mergeDedup (exactTHMatches t embeddings) (embeddings.filter (thMentionNearby t))

/-- Model of `filterByTownHallLevel(thLevel, embeddings)`; the JS truthiness test
`!thLevel` is satisfied both by an absent value and by `0`. -/
def filterByTownHallLevel (thLevel : Option Nat) (embeddings : List Doc) : List Doc :=
  match thLevel with
  | none => embeddings
  | some t =>
    if t = 0 then embeddings
    else if 5 ≤ (exactTHMatches t embeddings).length then exactTHMatches t embeddings
    else if 5 ≤ (combinedTHMatches t embeddings).length then combinedTHMatches t embeddings
    else embeddings

/-! ## `analyzeQuery` (lines 307-512) -/

/-- The upgrade-priority trigger condition (first rule of the cascade). -/
def upgradePriorityCond (lq : String) : Bool :=
  strContains lq "upgrade" ||
  strContains lq "priority" ||
  strContains lq "what should i upgrade" ||
  strContains lq "upgrade first" ||
  strContains lq "upgrade next" ||
  strContains lq "what to upgrade" ||
  (strContains lq "max" && strContains lq "first") ||
  (strContains lq "focus" && strContains lq "upgrade")

/-- The attack-strategy trigger condition (second rule). -/
def attackStrategyCond (lq : String) : Bool :=
  strContains lq "attack" ||
  strContains lq "strategy" ||
  strContains lq "army" ||
  strContains lq "raid" ||
  strContains lq "war attack" ||
  strContains lq "attack plan" ||
  strContains lq "composition" ||
  strContains lq "how to beat" ||
  strContains lq "how to attack" ||
  strContains lq "best troops for" ||
  strContains lq "troop comp"

/-- The base-design trigger condition (third rule). -/
def baseDesignCond (lq : String) : Bool :=
  strContains lq "base" ||
  strContains lq "layout" ||
  strContains lq "design" ||
  strContains lq "village layout" ||
  strContains lq "base plan" ||
  strContains lq "defense layout" ||
  strContains lq "base design" ||
  strContains lq "village setup" ||
  strContains lq "how to build" ||
  (strContains lq "arrange" && strContains lq "defense") ||
  (strContains lq "place" && strContains lq "building")

/-- The resource-management trigger condition (fourth rule). -/
def resourceManagementCond (lq : String) : Bool :=
  strContains lq "resource" ||
  strContains lq "gold" ||
  strContains lq "elixir" ||
  strContains lq "dark elixir" ||
  strContains lq "save" ||
  strContains lq "spend" ||
  strContains lq "economy" ||
  strContains lq "farm" ||
  strContains lq "loot" ||
  strContains lq "best way to get" ||
  strContains lq "how to get more"

/-- The fixed, ordered troop-name list scanned for `params.focusTroop`. -/
def troops : List String :=
  ["barbarian", "archer", "giant", "goblin", "wall breaker",
   "balloon", "wizard", "healer", "dragon", "pekka", "baby dragon",
   "miner", "electro dragon", "yeti", "dragon rider", "hog rider",
   "valkyrie", "golem", "witch", "lava hound", "bowler", "ice golem",
   "headhunter"]

/-- Parameter extraction of the upgrade-priority branch
(`itemType`, then `focus`). -/
def upgradeParams (lq : String) (p : Params) : Params :=
  let p :=
    if strContains lq "troop" || strContains lq "army" then
      { p with itemType := some "troop" }
    else if strContains lq "spell" then { p with itemType := some "spell" }
    else if strContains lq "hero" then { p with itemType := some "hero" }
    else if strContains lq "defense" || strContains lq "building" ||
        strContains lq "structure" || strContains lq "tower" ||
        strContains lq "cannon" || strContains lq "mortar" then
      { p with itemType := some "defense" }
    else p
  if strContains lq "offense" || strContains lq "attack" || strContains lq "troop" ||
      strContains lq "spell" || strContains lq "army" then
    { p with focus := some "offense" }
  else if strContains lq "defense" || strContains lq "defend" ||
      strContains lq "wall" || strContains lq "protect" then
    { p with focus := some "defense" }
  else p

/-- Parameter extraction of the attack-strategy branch
(`attackType`, then `focusTroop` by the first matching entry of the fixed
`troops` list, then `purpose`). -/
def attackParams (lq : String) (p : Params) : Params :=
  let p :=
    if strContains lq "air" || strContains lq "dragon" ||
        strContains lq "balloon" || strContains lq "hound" then
      { p with attackType := some "air" }
    else if strContains lq "ground" || strContains lq "hog" ||
        strContains lq "giant" || strContains lq "golem" ||
        strContains lq "pekka" || strContains lq "barbarian" ||
        strContains lq "archer" then
      { p with attackType := some "ground" }
    else p
  let p :=
    match troops.find? (fun troop => strContains lq troop) with
    | some troop => { p with focusTroop := some troop }
    | none => p
  if strContains lq "farm" || strContains lq "loot" then
    { p with purpose := some "farming" }
  else if strContains lq "war" || strContains lq "clan war" then
    { p with purpose := some "war" }
  else if strContains lq "trophy" || strContains lq "push" then
    { p with purpose := some "trophy" }
  else p

/-- Parameter extraction of the base-design branch (`baseType`). -/
def baseParams (lq : String) (p : Params) : Params :=
  if strContains lq "farm" || strContains lq "loot" then
    { p with baseType := some "farming" }
  else if strContains lq "war" || strContains lq "clan war" then
    { p with baseType := some "war" }
  else if strContains lq "trophy" || strContains lq "push" then
    { p with baseType := some "trophy" }
  else if strContains lq "hybrid" then { p with baseType := some "hybrid" }
  else p

/-- Parameter extraction of the resource-management branch
(`resourceType`, then `goal`). -/
def resourceParams (lq : String) (p : Params) : Params :=
  let p :=
    if strContains lq "gold" then { p with resourceType := some "gold" }
    else if strContains lq "elixir" && strContains lq "dark" then
      { p with resourceType := some "dark_elixir" }
    else if strContains lq "elixir" then { p with resourceType := some "elixir" }
    else if strContains lq "gem" then { p with resourceType := some "gems" }
    else p
  if strContains lq "save" || strContains lq "store" then
    { p with goal := some "saving" }
  else if strContains lq "farm" || strContains lq "collect" || strContains lq "get" then
    { p with goal := some "farming" }
  else if strContains lq "spend" || strContains lq "use" then
    { p with goal := some "spending" }
  else p

/-- Model of `analyzeQuery(query)`: the town-hall level is extracted first, then the
intent is decided by the ordered rule cascade, the matching branch running
its own parameter extraction; no rule matching yields `general` with no
further parameters.  The function is total: the JS original never throws. -/
def analyzeQuery (query : String) : QueryAnalysis :=
  let lowerQuery := strLower query
  let params0 : Params :=
    match findTHMatch lowerQuery.data with
    | some ds => { townHallLevel := some (digitsToNat ds) }
    | none => {}
  if upgradePriorityCond lowerQuery then
    { intent := "upgrade_priority", params := upgradeParams lowerQuery params0 }
  else if attackStrategyCond lowerQuery then
    { intent := "attack_strategy", params := attackParams lowerQuery params0 }
  else if baseDesignCond lowerQuery then
    { intent := "base_design", params := baseParams lowerQuery params0 }
  else if resourceManagementCond lowerQuery then
    { intent := "resource_management", params := resourceParams lowerQuery params0 }
  else { intent := "general", params := params0 }

/-! ## `retrieveContext` (lines 521-632)

The source interleaves result construction with the (accidental) in-place
update of corpus documents in its two boost branches; the model separates
the two: `retrievalCandidates` is the candidate list handed to `applyMMR`,
`retrievalCorpusAfter` is the corpus after the call. -/

/-- JS truthiness of an optional string (absent and `""` are falsy). -/
def strTruthy : Option String → Bool
  | none => false
  | some s => !(s == "")

/-- Normalise a JS-falsy number (absent or `0`) to `none`. -/
def truthyN : Option Nat → Option Nat
  | none => none
  | some n => if n = 0 then none else some n

/-- JS `a || b` on optional numbers. -/
def orFalsy (a b : Option Nat) : Option Nat :=
  match truthyN a with
  | some n => some n
  | none => truthyN b

/-- Model of `queryAnalysis.params.townHallLevel || queryAnalysis.params.targetTH`. -/
def thLevelOf (qa : QueryAnalysis) : Option Nat :=
  orFalsy qa.params.townHallLevel qa.params.targetTH

/-- Model of `if (doc.similarity === undefined) doc.similarity = cosineSimilarity(...)`. -/
def setSimIfNone (cos : List Rat → List Rat → Rat) (qe : List Rat) (d : Doc) : Doc :=
  match d.similarity with
  | none => { d with similarity := some (cos qe d.embedding) }
  | some _ => d

/-- Filter of the upgrade-priority boost:
`doc.metadata.type === itemType || doc.content.toLowerCase().includes(itemType)`. -/
def typeMatchPred (itemType : String) (d : Doc) : Bool :=
  (match d.metadata.mtype with
   | some ty => decide (ty = itemType)
   | none => false) ||
  strContains (strLower d.content) itemType

/-- Filter of the attack-strategy boost:
`(doc.metadata.name && doc.metadata.name.toLowerCase().includes(focusTroop)) ||
doc.content.toLowerCase().includes(focusTroop)`. -/
def troopDocPred (focusTroop : String) (d : Doc) : Bool :=
  (match d.metadata.name with
   | some n => strContains (strLower n) focusTroop
   | none => false) ||
  strContains (strLower d.content) focusTroop

/-- The top-3 type-specific documents of the upgrade-priority boost: the
type matches drawn from the TH-filtered corpus, given a similarity score
when they lack one, sorted by similarity (stable, descending), first 3. -/
def typeBoostList (cos : List Rat → List Rat → Rat) (qe : List Rat) (itemType : String)
    (filteredEmbeddings : List Doc) : List Doc :=
  let typeMatches := (filteredEmbeddings.filter (typeMatchPred itemType)).map
    (setSimIfNone cos qe)
  (sortDocsBy simval typeMatches).take 3

/-- The top-2 troop-specific documents of the attack-strategy boost. -/
def troopBoostList (cos : List Rat → List Rat → Rat) (qe : List Rat) (focusTroop : String)
    (filteredEmbeddings : List Doc) : List Doc :=
  let troopDocs := (filteredEmbeddings.filter (troopDocPred focusTroop)).map
    (setSimIfNone cos qe)
  (sortDocsBy simval troopDocs).take 2

/-- The two intent-boost branches (lines 564-625): merge the boost list
into the combined results, skipping keys already present. -/
def boostStage (cos : List Rat → List Rat → Rat) (qe : List Rat) (qa : QueryAnalysis)
    (filteredEmbeddings combined : List Doc) : List Doc :=
  if decide (qa.intent = "upgrade_priority") && strTruthy qa.params.itemType then
    match qa.params.itemType with
    | some itemType =>
      if 0 < (filteredEmbeddings.filter (typeMatchPred itemType)).length then
        mergeDedup combined (typeBoostList cos qe itemType filteredEmbeddings)
      else combined
    | none => combined
  else if decide (qa.intent = "attack_strategy") && strTruthy qa.params.focusTroop then
    match qa.params.focusTroop with
    | some focusTroop =>
      if 0 < (filteredEmbeddings.filter (troopDocPred focusTroop)).length then
        mergeDedup combined (troopBoostList cos qe focusTroop filteredEmbeddings)
      else combined
    | none => combined
  else combined

/-- The candidate list handed to `applyMMR`: TH-filter, hybrid semantic +
keyword search merged without key duplicates, similarity backfill, boosts. -/
def retrievalCandidates (cos : List Rat → List Rat → Rat) (qe : List Rat)
    (query : String) (qa : QueryAnalysis) (embeddings : List Doc) : List Doc :=
  let filteredEmbeddings := filterByTownHallLevel (thLevelOf qa) embeddings
  let keywords := extractKeywords query
  let semanticMatches := findSimilarDocuments cos qe filteredEmbeddings 7
  let keywordMatches := findKeywordMatches keywords filteredEmbeddings 7
  let combinedResults := mergeDedup semanticMatches keywordMatches
  let combinedResults := combinedResults.map (setSimIfNone cos qe)
  boostStage cos qe qa filteredEmbeddings combinedResults

/-- The corpus after a `retrieveContext` call.  The boost branches iterate
over `typeMatches` / `troopDocs`, which are the corpus objects themselves
(the TH filter and `Array.prototype.filter` return aliases, not copies),
and write a `similarity` field on each one lacking it; every other loop of
the function touches only spread-copies. -/
def retrievalCorpusAfter (cos : List Rat → List Rat → Rat) (qe : List Rat)
    (qa : QueryAnalysis) (embeddings : List Doc) : List Doc :=
  let filteredEmbeddings := filterByTownHallLevel (thLevelOf qa) embeddings
  if decide (qa.intent = "upgrade_priority") && strTruthy qa.params.itemType then
    match qa.params.itemType with
    | some itemType =>
      let typeMatches := filteredEmbeddings.filter (typeMatchPred itemType)
      if 0 < typeMatches.length then
        embeddings.map (fun d =>
          if decide (d ∈ filteredEmbeddings) && typeMatchPred itemType d then
            setSimIfNone cos qe d
          else d)
      else embeddings
    | none => embeddings
  else if decide (qa.intent = "attack_strategy") && strTruthy qa.params.focusTroop then
    match qa.params.focusTroop with
    | some focusTroop =>
      let troopDocs := filteredEmbeddings.filter (troopDocPred focusTroop)
      if 0 < troopDocs.length then
        embeddings.map (fun d =>
          if decide (d ∈ filteredEmbeddings) && troopDocPred focusTroop d then
            setSimIfNone cos qe d
          else d)
      else embeddings
    | none => embeddings
  else embeddings

/-- Model of `retrieveContext(query, queryAnalysis, embeddings)`: the retrieved
documents (MMR over the candidates, `topK = 5`, `lambda = 0.7`) paired with
the corpus state after the call. -/
def retrieveContext (cos : List Rat → List Rat → Rat) (qe : List Rat) (query : String)
    (qa : QueryAnalysis) (embeddings : List Doc) : List Doc × List Doc :=
  (applyMMR cos (retrievalCandidates cos qe query qa embeddings) qe 5 (mkRat 7 10),
   retrievalCorpusAfter cos qe qa embeddings)

/-! ## `generateAdvisorPrompt` (lines 641-777) -/

/-- Model of the intent display step, replacing every underscore of `queryAnalysis.intent` by a space. -/
def underscoreToSpace (s : String) : String :=
  ⟨s.data.map (fun c => if c = '_' then ' ' else c)⟩

/-- Interpolation of an optional number with a default (a JS `0` falls through to the default). -/
def showTHor (o : Option Nat) (dflt : String) : String :=
  match truthyN o with
  | some n => Nat.repr n
  | none => dflt

/-- Interpolation of an optional string with a default (a JS `""` falls through to the default). -/
def orStr (o : Option String) (dflt : String) : String :=
  match o with
  | some s => if s = "" then dflt else s
  | none => dflt

/-- One conditional analysis line: empty when the parameter is absent or empty, the prefixed value otherwise. -/
def optLine (pre : String) (o : Option String) : String :=
  match o with
  | some s => if s = "" then "" else pre ++ s
  | none => ""

/-- One formatted context excerpt: the document index, the optional name
prefix, and the trimmed content. -/
def docLine (index : Nat) (d : Doc) : String :=
  "[Document " ++ Nat.repr (index + 1) ++ "] " ++
  (match d.metadata.name with
   | some n => if n = "" then "" else n ++ ": "
   | none => "") ++
  trimStr d.content

/-- The `contextInfo` block: excerpts joined by blank lines. -/
def contextInfoOf (contextDocs : List Doc) : String :=
  joinSep "\n\n" (contextDocs.enum.map (fun p => docLine p.1 p.2))

/-- The intent-specific instruction block of the prompt. -/
def intentInstructionsOf (qa : QueryAnalysis) : String :=
  if qa.intent = "upgrade_priority" then
    "\n    - Focus on providing upgrade priority recommendations" ++
    "\n    - Consider the player\x27s Town Hall level (" ++
      showTHor qa.params.townHallLevel "unknown" ++ ")" ++
    "\n    - Prioritize items that will have the biggest impact on gameplay" ++
    "\n    - Provide a clear ordering of what to upgrade first, second, etc." ++
    "\n    - Consider both offensive and defensive upgrades" ++
    "\n    - Mention specific unit levels and building levels where appropriate" ++
    "\n    - Consider resource constraints (gold vs. elixir vs. dark elixir)" ++
    "\n    - Specify which laboratory upgrades are most valuable" ++
    "\n    " ++
    (if qa.params.focus = some "offense" then
      "\n      - Focus specifically on offensive upgrades (troops, spells, heroes, army buildings)" ++
      "\n      - Prioritize units that are versatile across multiple attack strategies" ++
      "\n      "
     else if qa.params.focus = some "defense" then
      "\n      - Focus specifically on defensive upgrades (defensive buildings, traps, walls)" ++
      "\n      - Prioritize defenses that protect against common attack strategies" ++
      "\n      "
     else "")
  else if qa.intent = "attack_strategy" then
    "\n    - Recommend a specific, detailed attack strategy" ++
    "\n    - Include army composition with specific troop counts" ++
    "\n    - Explain the deployment order and timing" ++
    "\n    - Mention which spells to use and when" ++
    "\n    - Consider the target Town Hall level (" ++
      showTHor qa.params.targetTH "unknown" ++ ")" ++
    "\n    - Explain how to handle common base layouts" ++
    "\n    - Include hero usage recommendations" ++
    "\n    - Mention potential backup plans if parts of the attack fail" ++
    "\n    " ++
    (if qa.params.attackType = some "air" then
      "\n      - Focus on air-based strategies" ++
      "\n      - Explain how to handle air defenses and air bombs" ++
      "\n      "
     else if qa.params.attackType = some "ground" then
      "\n      - Focus on ground-based strategies" ++
      "\n      - Explain how to handle walls, traps, and splash damage" ++
      "\n      "
     else "") ++
    (if qa.params.purpose = some "farming" then
      "\n      - Optimize for resource collection rather than total destruction" ++
      "\n      - Consider army training costs and time" ++
      "\n      "
     else if qa.params.purpose = some "war" then
      "\n      - Optimize for 3-star attacks" ++
      "\n      - Assume time is not a constraint for training" ++
      "\n      "
     else if qa.params.purpose = some "trophy" then
      "\n      - Optimize for securing at least 2 stars consistently" ++
      "\n      - Balance army training time and effectiveness" ++
      "\n      "
     else "")
  else if qa.intent = "base_design" then
    "\n    - Provide base design principles for a " ++
      orStr qa.params.baseType "general" ++ " base" ++
    "\n    - Consider Town Hall level " ++ showTHor qa.params.townHallLevel "unknown" ++
    "\n    - Explain the placement of key defenses" ++
    "\n    - Discuss wall arrangement and compartments" ++
    "\n    - Mention trap placement with specific locations" ++
    "\n    - Explain how to protect key buildings (Town Hall, resource storages, etc.)" ++
    "\n    - Provide a logical layout sequence or zones" ++
    "\n    - Explain how the design counters common attack strategies" ++
    "\n    "
  else if qa.intent = "resource_management" then
    "\n    - Provide advice on " ++ orStr qa.params.goal "managing" ++ " " ++
      orStr qa.params.resourceType "resources" ++
    "\n    - Consider the player\x27s Town Hall level (" ++
      showTHor qa.params.townHallLevel "unknown" ++ ")" ++
    "\n    - Suggest specific farming strategies if appropriate" ++
    "\n    - Explain upgrade priority from a resource efficiency perspective" ++
    "\n    - Provide tips for protecting resources from raids" ++
    "\n    - Mention ways to maximize resource production" ++
    "\n    - Suggest the best leagues or trophy ranges for resource collection" ++
    "\n    "
  else ""

/-- Model of `generateAdvisorPrompt(query, queryAnalysis, contextDocs)`: the full
prompt string handed to the external generation call. -/
def generateAdvisorPrompt (query : String) (qa : QueryAnalysis)
    (contextDocs : List Doc) : String :=
  let contextInfo := contextInfoOf contextDocs
  let intentInstructions := intentInstructionsOf qa
  "\nYou are a Clash of Clans Strategy Advisor, knowledgeable about all aspects " ++
  "of the game including troops, buildings, spells, attack strategies, and base " ++
  "designs across all Town Hall levels.\n\nUSER QUERY: \"" ++ query ++ "\"\n\n" ++
  "QUERY ANALYSIS:\n" ++ "- Intent: " ++ underscoreToSpace qa.intent ++
  "\n- Town Hall Level: " ++
  showTHor (orFalsy qa.params.townHallLevel qa.params.targetTH) "Unknown" ++ "\n" ++
  optLine "- Focus Troop: " qa.params.focusTroop ++ "\n" ++
  optLine "- Attack Type: " qa.params.attackType ++ "\n" ++
  optLine "- Base Type: " qa.params.baseType ++ "\n" ++
  optLine "- Item Type: " qa.params.itemType ++ "\n\n" ++
  "RELEVANT CLASH OF CLANS INFORMATION:\n" ++ contextInfo ++ "\n\n" ++
  "INSTRUCTIONS:\nPlease provide a comprehensive, accurate response to help the " ++
  "player with their question. Your response should be structured, helpful, and " ++
  "directly address their specific query.\n\n" ++ intentInstructions ++ "\n\n" ++
  "IMPORTANT GUIDELINES:\n" ++
  "- Use the provided context information, but don\x27t just repeat it verbatim\n" ++
  "- If the context doesn\x27t fully address the query, use your knowledge of Clash of Clans\n" ++
  "- Be specific and detailed in your recommendations\n" ++
  "- Always cite your sources when providing specific information (e.g., [Document X])\n" ++
  "- Only mention troops, spells, buildings, and features that exist in Clash of Clans\n" ++
  "- If you\x27re unsure about any information, acknowledge the limitations\n" ++
  "- Present your response in a clear, structured format with headings and lists " ++
  "where appropriate\n" ++
  "- Focus on practical advice that can be implemented immediately\n\n" ++
  "Based on the user\x27s query and available context, provide your most helpful " ++
  "response now.\n"

/-! ## Definitions taken from the wording of the specification

These two definitions do NOT come from the source; they formalise phrases
of the specification so that refinement claims can be compared against the
code (`topKBySimilarity` for the MMR λ=1 claim, `firstTroopInText` for the
claimed "first occurrence in the text wins" rule). -/

/-- Spec wording: "taking the top K candidates by similarity alone"
(stable descending sort by the stored similarity, first `K`). -/
def topKBySimilarity (candidates : List Doc) (topK : Nat) : List Doc :=
  (sortDocsBy simval candidates).take topK

/-- Index of the first occurrence of `pat` in `s` (`String.prototype.indexOf`). -/
def occIdx (pat : List Char) : List Char → Option Nat
  | [] => if headMatch pat [] then some 0 else none
  | c :: cs =>
    if headMatch pat (c :: cs) then some 0
    else (occIdx pat cs).map (· + 1)

/-- Spec wording of the claim under test: among the unit names present in
the query text, the one whose first occurrence in the text is earliest
(ties broken by the fixed list order). -/
def firstTroopInText (lq : String) : Option String :=
  match troops.filterMap (fun t => (occIdx t.data lq.data).map (fun i => (i, t))) with
  | [] => none
  | p :: ps =>
    some (ps.foldl (fun best q => if q.1 < best.1 then q else best) p).2

/-! ## Concrete demonstration inputs (used by witnesses and counterexamples) -/

/-- A degenerate similarity oracle; every theorem below holds for every
oracle, so any concrete choice may instantiate them. -/
def cos0 : List Rat → List Rat → Rat := fun _ _ => 0

/-- A troop-typed corpus document. -/
def demoTroopDoc : Doc :=
  { metadata := { id := "giant", category := "troops", name := some "Giant",
                  mtype := some "troop" },
    content := "giants are strong ground units",
    embedding := [1] }

/-- A document whose content mentions town-hall tier 9. -/
def demoTHDoc (i : Nat) : Doc :=
  { metadata := { id := "base" ++ Nat.repr i, category := "guides" },
    content := "th9 base guide number " ++ Nat.repr i,
    embedding := [1] }

/-- A corpus with five tier-9 documents and one troop document. -/
def demoCorpus6 : List Doc :=
  [demoTHDoc 1, demoTHDoc 2, demoTHDoc 3, demoTHDoc 4, demoTHDoc 5, demoTroopDoc]

/-- An upgrade-priority analysis with an item type and no tier. -/
def qaUpgrade : QueryAnalysis :=
  { intent := "upgrade_priority", params := { itemType := some "troop" } }

/-- An upgrade-priority analysis with tier 9 and an item type. -/
def qaUpgrade9 : QueryAnalysis :=
  { intent := "upgrade_priority",
    params := { townHallLevel := some 9, itemType := some "troop" } }

/-- An attack-strategy analysis with a focus troop. -/
def qaAttackW : QueryAnalysis :=
  { intent := "attack_strategy",
    params := { focusTroop := some "dragon", attackType := some "air" } }

/-- Two pre-scored documents for the MMR witnesses. -/
def wDocA : Doc :=
  { metadata := { id := "a", category := "c" }, content := "", embedding := [],
    similarity := some 1 }

/-- Second pre-scored document. -/
def wDocB : Doc :=
  { metadata := { id := "b", category := "c" }, content := "", embedding := [],
    similarity := some 0 }

/-! ## Helper lemmas: keys, permutations, sorting -/

/-- No two entries share an `(id, category)` key. -/
def keysNodup (l : List Doc) : Prop := (l.map keyOf).Nodup

instance keysNodupDecidable (l : List Doc) : Decidable (keysNodup l) :=
  List.nodupDecidable _

theorem keysNodup_of_sublist {l₁ l₂ : List Doc} (h : l₁.Sublist l₂) :
    keysNodup l₂ → keysNodup l₁ :=
  fun h2 => (h.map keyOf).nodup h2

theorem keysNodup_of_perm {l₁ l₂ : List Doc} (h : l₁.Perm l₂) :
    keysNodup l₁ → keysNodup l₂ :=
  fun h1 => (h.map keyOf).nodup h1

theorem keysNodup_of_subperm {l₁ l₂ : List Doc} (h : l₁.Subperm l₂) :
    keysNodup l₂ → keysNodup l₁ := by
  rcases h with ⟨l, hp, hs⟩
  exact fun h2 => keysNodup_of_perm hp (keysNodup_of_sublist hs h2)

theorem keysNodup_map (f : Doc → Doc) (hf : ∀ d, keyOf (f d) = keyOf d)
    {l : List Doc} (h : keysNodup l) : keysNodup (l.map f) := by
  unfold keysNodup at *
  have hmm : List.map keyOf (l.map f) = List.map keyOf l := by
    rw [List.map_map]; exact List.map_congr_left (fun d _ => hf d)
  rwa [hmm]

theorem sortDocsBy_perm (key : Doc → Rat) (l : List Doc) :
    (sortDocsBy key l).Perm l :=
  @List.perm_insertionSort Doc (fun a b => key b ≤ key a)
    (fun a b => Rat.instDecidableLe (key b) (key a)) l

theorem sortDocsByN_perm (key : Doc → Nat) (l : List Doc) :
    (sortDocsByN key l).Perm l :=
  @List.perm_insertionSort Doc (fun a b => key b ≤ key a)
    (fun a b => Nat.decLe (key b) (key a)) l

theorem sortDocsBy_sorted (key : Doc → Rat) (l : List Doc) :
    (sortDocsBy key l).Pairwise (fun a b => key b ≤ key a) := by
  have htot : IsTotal Doc (fun a b => key b ≤ key a) := ⟨fun a b => le_total (key b) (key a)⟩
  have htr : IsTrans Doc (fun a b => key b ≤ key a) :=
    ⟨fun _ _ _ hab hbc => le_trans hbc hab⟩
  exact @List.sorted_insertionSort Doc (fun a b => key b ≤ key a)
    (fun a b => Rat.instDecidableLe (key b) (key a)) htot htr l

/-! ## Helper lemmas: `mergeDedup` -/

theorem mem_mergeDedup_left {x : Doc} {acc : List Doc} (ms : List Doc)
    (h : x ∈ acc) : x ∈ mergeDedup acc ms := by
  induction ms generalizing acc with
  | nil => exact h
  | cons m ms ih =>
    unfold mergeDedup
    split
    · exact ih h
    · exact ih (List.mem_append_left _ h)

theorem key_mem_mergeDedup_left {k : String × String} {acc : List Doc} (ms : List Doc)
    (h : k ∈ acc.map keyOf) : k ∈ (mergeDedup acc ms).map keyOf := by
  rcases List.mem_map.1 h with ⟨d, hd, rfl⟩
  exact List.mem_map.2 ⟨d, mem_mergeDedup_left ms hd, rfl⟩

theorem key_mem_mergeDedup_right {m : Doc} {ms : List Doc} (acc : List Doc)
    (h : m ∈ ms) : keyOf m ∈ (mergeDedup acc ms).map keyOf := by
  induction ms generalizing acc with
  | nil => cases h
  | cons m' ms ih =>
    unfold mergeDedup
    rcases List.mem_cons.1 h with rfl | hmem
    · split
      · next hany =>
        rcases List.any_eq_true.1 hany with ⟨d, hd, hkey⟩
        exact key_mem_mergeDedup_left ms
          (List.mem_map.2 ⟨d, hd, of_decide_eq_true hkey⟩)
      · exact key_mem_mergeDedup_left ms
          (List.mem_map.2 ⟨m, List.mem_append_right _ (List.mem_singleton.2 rfl), rfl⟩)
    · split
      · exact ih _ hmem
      · exact ih _ hmem

theorem keysNodup_mergeDedup {acc : List Doc} (ms : List Doc)
    (h : keysNodup acc) : keysNodup (mergeDedup acc ms) := by
  induction ms generalizing acc with
  | nil => exact h
  | cons m ms ih =>
    unfold mergeDedup
    split
    · exact ih h
    · next hany =>
      refine ih ?_
      unfold keysNodup at *
      rw [List.map_append]
      refine List.Nodup.append h (List.nodup_singleton _) ?_
      intro k hk hk'
      rcases List.mem_map.1 hk with ⟨d, hd, rfl⟩
      have heq : keyOf d = keyOf m := by simpa using hk'
      exact absurd (List.any_eq_true.2 ⟨d, hd, by simp [heq]⟩) hany

/-! ## Helper lemmas: `extractBest`, `mmrLoop`, `applyMMR` -/

theorem extractBest_eq_none {score : Doc → Rat} {l : List Doc}
    (h : extractBest score l = none) : l = [] := by
  cases l with
  | nil => rfl
  | cons d ds =>
    exfalso
    simp only [extractBest] at h
    split at h
    · simp at h
    · split at h <;> simp at h

theorem extractBest_perm {score : Doc → Rat} {l : List Doc} {b : Doc} {rest : List Doc}
    (h : extractBest score l = some (b, rest)) : l.Perm (b :: rest) := by
  induction l generalizing b rest with
  | nil => simp [extractBest] at h
  | cons d ds ih =>
    simp only [extractBest] at h
    split at h
    · rename_i h'
      obtain rfl := extractBest_eq_none h'
      simp at h
      obtain ⟨rfl, rfl⟩ := h
      exact List.Perm.refl _
    · rename_i b' rest' h'
      split at h
      · simp at h
        obtain ⟨rfl, rfl⟩ := h
        exact ((ih h').cons d).trans (List.Perm.swap b' d rest')
      · simp at h
        obtain ⟨rfl, rfl⟩ := h
        exact List.Perm.refl _

theorem extractBest_mem {score : Doc → Rat} {l : List Doc} {b : Doc} {rest : List Doc}
    (h : extractBest score l = some (b, rest)) : b ∈ l :=
  (extractBest_perm h).symm.subset (List.mem_cons_self b rest)

theorem extractBest_head_of_max {score : Doc → Rat} {d : Doc} {t : List Doc}
    (h : ∀ x ∈ t, score x ≤ score d) : extractBest score (d :: t) = some (d, t) := by
  rcases h' : extractBest score t with _ | ⟨b, rest⟩
  · obtain rfl := extractBest_eq_none h'
    rfl
  · have hb : score b ≤ score d := h b (extractBest_mem h')
    simp only [extractBest]
    rw [h']
    exact if_neg (not_lt.2 hb)

theorem mmrLoop_subperm (cos : List Rat → List Rat → Rat) (lambda : Rat) :
    ∀ (fuel : Nat) (sel rem : List Doc),
      (mmrLoop cos lambda fuel sel rem).Subperm (sel ++ rem) := by
  intro fuel
  induction fuel with
  | zero =>
    intro sel rem
    exact (List.sublist_append_left sel rem).subperm
  | succ fuel ih =>
    intro sel rem
    rcases h : extractBest
        (fun d => lambda * simval d - (1 - lambda) * maxSimTo cos d sel) rem
      with _ | ⟨b, rest⟩
    · obtain rfl := extractBest_eq_none h
      simpa [mmrLoop, extractBest] using List.Subperm.refl sel
    · simp only [mmrLoop]
      rw [h]
      have hperm : ((sel ++ [b]) ++ rest).Perm (sel ++ rem) := by
        rw [List.append_assoc, List.singleton_append]
        exact List.Perm.append_left sel (extractBest_perm h).symm
      exact (ih (sel ++ [b]) rest).trans hperm.subperm

theorem mmrLoop_length (cos : List Rat → List Rat → Rat) (lambda : Rat) :
    ∀ (fuel : Nat) (sel rem : List Doc),
      (mmrLoop cos lambda fuel sel rem).length = sel.length + min fuel rem.length := by
  intro fuel
  induction fuel with
  | zero => intro sel rem; simp [mmrLoop]
  | succ fuel ih =>
    intro sel rem
    rcases h : extractBest
        (fun d => lambda * simval d - (1 - lambda) * maxSimTo cos d sel) rem
      with _ | ⟨b, rest⟩
    · obtain rfl := extractBest_eq_none h
      simp [mmrLoop, extractBest]
    · have hlen : rem.length = rest.length + 1 := by
        simpa using (extractBest_perm h).length_eq
      simp only [mmrLoop]
      rw [h, ih (sel ++ [b]) rest]
      have hmin : min (fuel + 1) rem.length = min fuel rest.length + 1 := by
        rw [hlen]
        exact Nat.succ_min_succ fuel rest.length
      simp [hmin]
      omega

theorem applyMMR_subperm (cos : List Rat → List Rat → Rat) (candidates : List Doc)
    (qe : List Rat) (topK : Nat) (lambda : Rat) :
    (applyMMR cos candidates qe topK lambda).Subperm candidates := by
  unfold applyMMR
  split
  · exact List.Subperm.refl _
  · rcases h : sortDocsBy simval candidates with _ | ⟨c, rest⟩
    · exact List.nil_subperm
    · refine (mmrLoop_subperm cos lambda (topK - 1) [c] rest).trans
        (List.Perm.subperm ?_)
      rw [List.singleton_append, ← h]
      exact sortDocsBy_perm simval candidates

theorem applyMMR_length (cos : List Rat → List Rat → Rat) (candidates : List Doc)
    (qe : List Rat) (topK : Nat) (lambda : Rat) (hK : 1 ≤ topK) :
    (applyMMR cos candidates qe topK lambda).length = min topK candidates.length := by
  unfold applyMMR
  split
  · rename_i hle
    exact (Nat.min_eq_right hle).symm
  · rename_i hgt
    rcases h : sortDocsBy simval candidates with _ | ⟨c, rest⟩
    · exfalso
      have hl := (sortDocsBy_perm simval candidates).length_eq
      rw [h] at hl
      simp at hl
      omega
    · have hsl : candidates.length = rest.length + 1 := by
        have hl := (sortDocsBy_perm simval candidates).length_eq
        rw [h] at hl
        simpa using hl.symm
      rw [mmrLoop_length]
      have h1 : min (topK - 1) rest.length = topK - 1 := Nat.min_eq_left (by omega)
      have h2 : min topK candidates.length = topK := Nat.min_eq_left (by omega)
      rw [h1, h2]
      simp
      omega

/-! ## Helper lemmas: the λ = 1 degenerate MMR loop -/

theorem mmrLoop_one (cos : List Rat → List Rat → Rat) :
    ∀ (fuel : Nat) (sel rem : List Doc),
      rem.Pairwise (fun a b => simval b ≤ simval a) →
      mmrLoop cos 1 fuel sel rem = sel ++ rem.take fuel := by
  intro fuel
  induction fuel with
  | zero => intro sel rem _; simp [mmrLoop]
  | succ fuel ih =>
    intro sel rem hsorted
    cases rem with
    | nil => simp [mmrLoop, extractBest]
    | cons d t =>
      have hmax : ∀ x ∈ t,
          (fun x => (1 : Rat) * simval x - (1 - 1) * maxSimTo cos x sel) x ≤
          (fun x => (1 : Rat) * simval x - (1 - 1) * maxSimTo cos x sel) d := by
        intro x hx
        have hle : simval x ≤ simval d := (List.pairwise_cons.1 hsorted).1 x hx
        simpa using hle
      simp only [mmrLoop]
      rw [extractBest_head_of_max hmax]
      show mmrLoop cos 1 fuel (sel ++ [d]) t = sel ++ List.take (fuel + 1) (d :: t)
      rw [ih (sel ++ [d]) t (List.pairwise_cons.1 hsorted).2]
      simp [List.take_succ_cons]

/-! ## Helper lemmas: key-uniqueness through the pipeline -/

theorem keyOf_setSimIfNone (cos : List Rat → List Rat → Rat) (qe : List Rat) (d : Doc) :
    keyOf (setSimIfNone cos qe d) = keyOf d := by
  unfold setSimIfNone
  cases d.similarity <;> rfl

theorem keysNodup_exactTHMatches (t : Nat) {l : List Doc} (h : keysNodup l) :
    keysNodup (exactTHMatches t l) := by
  show keysNodup (List.filter (thMentionExact t) l)
  exact keysNodup_of_sublist (List.filter_sublist l) h

theorem keysNodup_combinedTHMatches (t : Nat) {l : List Doc} (h : keysNodup l) :
    keysNodup (combinedTHMatches t l) := by
  show keysNodup (mergeDedup (exactTHMatches t l) (List.filter (thMentionNearby t) l))
  exact keysNodup_mergeDedup _ (keysNodup_exactTHMatches t h)

theorem keysNodup_filterByTownHallLevel (o : Option Nat) {l : List Doc}
    (h : keysNodup l) : keysNodup (filterByTownHallLevel o l) := by
  cases o with
  | none => exact h
  | some t =>
    show keysNodup
      (if t = 0 then l
       else if 5 ≤ (exactTHMatches t l).length then exactTHMatches t l
       else if 5 ≤ (combinedTHMatches t l).length then combinedTHMatches t l
       else l)
    split
    · exact h
    · split
      · exact keysNodup_exactTHMatches t h
      · split
        · exact keysNodup_combinedTHMatches t h
        · exact h

theorem keysNodup_findSimilarDocuments (cos : List Rat → List Rat → Rat) (qe : List Rat)
    {l : List Doc} (k : Nat) (h : keysNodup l) :
    keysNodup (findSimilarDocuments cos qe l k) := by
  unfold findSimilarDocuments
  refine keysNodup_of_sublist (List.take_sublist _ _)
    (keysNodup_of_perm (sortDocsBy_perm _ _).symm ?_)
  exact keysNodup_map
    (fun d => { d with similarity := some (cos qe d.embedding) }) (fun _ => rfl) h

theorem keysNodup_findKeywordMatches (keywords : List String) {l : List Doc} (k : Nat)
    (h : keysNodup l) : keysNodup (findKeywordMatches keywords l k) := by
  unfold findKeywordMatches
  refine keysNodup_of_sublist (List.take_sublist _ _)
    (keysNodup_of_perm (sortDocsByN_perm _ _).symm ?_)
  exact keysNodup_of_sublist (List.filter_sublist _)
    (keysNodup_map
      (fun d => { d with keywordScore := some (docKeywordScore keywords d) })
      (fun _ => rfl) h)

theorem keysNodup_boostStage (cos : List Rat → List Rat → Rat) (qe : List Rat)
    (qa : QueryAnalysis) (filteredEmbeddings : List Doc) {combined : List Doc}
    (h : keysNodup combined) :
    keysNodup (boostStage cos qe qa filteredEmbeddings combined) := by
  unfold boostStage
  split
  · split
    · split
      · exact keysNodup_mergeDedup _ h
      · exact h
    · exact h
  · split
    · split
      · split
        · exact keysNodup_mergeDedup _ h
        · exact h
      · exact h
    · exact h

theorem keysNodup_retrievalCandidates (cos : List Rat → List Rat → Rat) (qe : List Rat)
    (query : String) (qa : QueryAnalysis) {embeddings : List Doc}
    (h : keysNodup embeddings) :
    keysNodup (retrievalCandidates cos qe query qa embeddings) := by
  unfold retrievalCandidates
  have hf : keysNodup (filterByTownHallLevel (thLevelOf qa) embeddings) :=
    keysNodup_filterByTownHallLevel _ h
  exact keysNodup_boostStage _ _ _ _
    (keysNodup_map (setSimIfNone cos qe) (keyOf_setSimIfNone cos qe)
      (keysNodup_mergeDedup _ (keysNodup_findSimilarDocuments cos qe 7 hf)))

/-! ## Helper lemmas: substring containment through appends -/

theorem headMatch_append (pat t : List Char) : headMatch pat (pat ++ t) = true := by
  induction pat with
  | nil => rfl
  | cons a as ih => simp [headMatch, ih]

theorem subSeq_here (pat t : List Char) : subSeq pat (pat ++ t) = true := by
  cases pat with
  | nil => cases t <;> simp [subSeq, headMatch]
  | cons a as =>
    have h := headMatch_append (a :: as) t
    simp only [List.cons_append] at h
    simp [subSeq, h]

theorem subSeq_append_left (s t pat : List Char) (h : subSeq pat t = true) :
    subSeq pat (s ++ t) = true := by
  induction s with
  | nil => simpa using h
  | cons c cs ih =>
    show subSeq pat (c :: (cs ++ t)) = true
    simp only [subSeq, ih, Bool.or_true]

theorem strContains_append_of_right (s t pat : String) (h : strContains t pat = true) :
    strContains (s ++ t) pat = true := by
  show subSeq pat.data (s ++ t).data = true
  rw [String.data_append]
  exact subSeq_append_left s.data t.data pat.data h

theorem strContains_prefix_append (p q b : String) :
    strContains (p ++ (q ++ b)) (p ++ q) = true := by
  show subSeq (p ++ q).data (p ++ (q ++ b)).data = true
  simp only [String.data_append]
  rw [← List.append_assoc]
  exact subSeq_here _ _

theorem strAppend_assoc (x y z : String) : x ++ y ++ z = x ++ (y ++ z) := by
  cases x; cases y; cases z
  show String.mk _ = String.mk _
  simp [String.data_append]

/-! ## Helper lemmas: the empty corpus -/

theorem filterByTownHallLevel_nil (o : Option Nat) : filterByTownHallLevel o [] = [] := by
  cases o <;>
    simp [filterByTownHallLevel, exactTHMatches, combinedTHMatches, mergeDedup]

theorem retrievalCandidates_nil (cos : List Rat → List Rat → Rat) (qe : List Rat)
    (query : String) (qa : QueryAnalysis) :
    retrievalCandidates cos qe query qa [] = [] := by
  unfold retrievalCandidates
  rw [filterByTownHallLevel_nil]
  cases h1 : qa.params.itemType <;> cases h2 : qa.params.focusTroop <;>
    simp [findSimilarDocuments, findKeywordMatches, sortDocsBy, sortDocsByN,
      mergeDedup, boostStage, typeBoostList, troopBoostList, h1, h2]

/-! ## Claim theorems -/

/-- C1:  For every corpus whose documents have pairwise-distinct
`(metadata.id, metadata.category)` keys, the list returned by
`retrieveContext` contains no two entries with the same key and has at most
the requested top-K = 5 entries — for every similarity oracle, query
embedding, query and query analysis. -/
theorem retrieveContext_dedup_bounded (cos : List Rat → List Rat → Rat) (qe : List Rat)
    (query : String) (qa : QueryAnalysis) (embeddings : List Doc)
    (h : keysNodup embeddings) :
    keysNodup (retrieveContext cos qe query qa embeddings).1 ∧
    (retrieveContext cos qe query qa embeddings).1.length ≤ 5 := by
  constructor
  · exact keysNodup_of_subperm
      (applyMMR_subperm cos (retrievalCandidates cos qe query qa embeddings) qe 5
        (mkRat 7 10))
      (keysNodup_retrievalCandidates cos qe query qa h)
  · show (applyMMR cos (retrievalCandidates cos qe query qa embeddings) qe 5
      (mkRat 7 10)).length ≤ 5
    rw [applyMMR_length _ _ _ _ _ (by omega)]
    exact Nat.min_le_left _ _

/-- Witness for C1 at a concrete corpus with distinct keys. -/
theorem retrieveContext_dedup_bounded_witness :
    keysNodup (retrieveContext cos0 [] "what to upgrade" qaUpgrade [demoTroopDoc]).1 ∧
    (retrieveContext cos0 [] "what to upgrade" qaUpgrade [demoTroopDoc]).1.length ≤ 5 :=
  retrieveContext_dedup_bounded cos0 [] "what to upgrade" qaUpgrade [demoTroopDoc]
    (by decide)

/-- C4:  For every candidate list, query embedding, `K ≥ 1` and
`λ ∈ [0, 1]`, with every candidate carrying a similarity score, `applyMMR`
returns exactly `min(K, |candidates|)` documents, all drawn from the
candidate list. -/
theorem applyMMR_size_subset (cos : List Rat → List Rat → Rat) (candidates : List Doc)
    (qe : List Rat) (K : Nat) (lambda : Rat) (hK : 1 ≤ K)
    (h0 : 0 ≤ lambda) (h1 : lambda ≤ 1)
    (hsim : ∀ d ∈ candidates, d.similarity.isSome = true) :
    (applyMMR cos candidates qe K lambda).length = min K candidates.length ∧
    ∀ d ∈ applyMMR cos candidates qe K lambda, d ∈ candidates :=
  ⟨applyMMR_length cos candidates qe K lambda hK,
   fun _ hd => (applyMMR_subperm cos candidates qe K lambda).subset hd⟩

/-- Witness for C4 at `K = 1` over a two-element candidate list. -/
theorem applyMMR_size_subset_witness :
    (applyMMR cos0 [wDocA, wDocB] [] 1 (mkRat 1 2)).length = min 1 2 :=
  (applyMMR_size_subset cos0 [wDocA, wDocB] [] 1 (mkRat 1 2)
    (by decide) (by decide) (by decide) (by decide)).1

/-- C5:  For every corpus and tier `t`, when the exact matches number
fewer than five and the key-deduplicated union of exact and nearby matches
also numbers fewer than five, `filterByTownHallLevel` falls back to the
whole corpus unchanged. -/
theorem filterByTownHallLevel_fallback (t : Nat) (embeddings : List Doc)
    (hexact : (exactTHMatches t embeddings).length < 5)
    (hcomb : (combinedTHMatches t embeddings).length < 5) :
    filterByTownHallLevel (some t) embeddings = embeddings := by
  show (if t = 0 then embeddings
    else if 5 ≤ (exactTHMatches t embeddings).length then exactTHMatches t embeddings
    else if 5 ≤ (combinedTHMatches t embeddings).length then combinedTHMatches t embeddings
    else embeddings) = embeddings
  split
  · rfl
  · rw [if_neg (by omega), if_neg (by omega)]

/-- Witness for C5 at tier 9 over the singleton troop corpus. -/
theorem filterByTownHallLevel_fallback_witness :
    filterByTownHallLevel (some 9) [demoTroopDoc] = [demoTroopDoc] :=
  filterByTownHallLevel_fallback 9 [demoTroopDoc] (by decide) (by decide)

/-- C6:  With `λ = 1` the diversity penalty vanishes: over any candidate
list with more than `K ≥ 1` members, `applyMMR` returns exactly the top-K
candidates by similarity (same stable tie-breaking on both sides). -/
theorem applyMMR_lambda_one (cos : List Rat → List Rat → Rat) (candidates : List Doc)
    (qe : List Rat) (K : Nat) (hK : 1 ≤ K) (hlen : K < candidates.length) :
    applyMMR cos candidates qe K 1 = topKBySimilarity candidates K := by
  unfold applyMMR topKBySimilarity
  rw [if_neg (by omega)]
  rcases h : sortDocsBy simval candidates with _ | ⟨c, rest⟩
  · exfalso
    have hl := (sortDocsBy_perm simval candidates).length_eq
    rw [h] at hl
    simp at hl
    omega
  · show mmrLoop cos 1 (K - 1) [c] rest = (c :: rest).take K
    have hsorted := sortDocsBy_sorted simval candidates
    rw [h] at hsorted
    rw [mmrLoop_one cos (K - 1) [c] rest (List.pairwise_cons.1 hsorted).2]
    obtain ⟨K', rfl⟩ : ∃ K', K = K' + 1 := ⟨K - 1, by omega⟩
    simp [List.take_succ_cons]

/-- Witness for C6 at `K = 1` over a two-element candidate list. -/
theorem applyMMR_lambda_one_witness :
    applyMMR cos0 [wDocA, wDocB] [] 1 1 = topKBySimilarity [wDocA, wDocB] 1 :=
  applyMMR_lambda_one cos0 [wDocA, wDocB] [] 1 (by decide) (by decide)

/-! ## C10: the domain-abbreviation allow-list is a substring test -/

theorem mem_addCocTerms_of_mem (c : String) {x : String} (ts : List String) :
    ∀ {ks : List String}, x ∈ ks → x ∈ addCocTerms c ks ts := by
  induction ts with
  | nil => intro ks h; exact h
  | cons t ts ih =>
    intro ks h
    unfold addCocTerms
    split
    · exact ih (List.mem_append_left _ h)
    · exact ih h

theorem mem_addCocTerms_self (c t : String) (hc : strContains c t = true) :
    ∀ (ts : List String) (ks : List String), t ∈ ts → t ∈ addCocTerms c ks ts := by
  intro ts
  induction ts with
  | nil => intro ks h; cases h
  | cons t' ts ih =>
    intro ks ht
    unfold addCocTerms
    rcases List.mem_cons.1 ht with rfl | hmem
    · apply mem_addCocTerms_of_mem c ts
      split
      · exact List.mem_append_right _ (List.mem_singleton.2 rfl)
      · rename_i hcond
        have hkc : ks.contains t = true := by
          by_contra hkc
          exact hcond (by rw [hc, Bool.eq_false_iff.2 hkc]; rfl)
        simpa using hkc
    · split
      · exact ih _ hmem
      · exact ih _ hmem

/-- C10:  Whenever the lower-cased, punctuation-stripped query contains
one of the domain abbreviations `th`, `war`, `coc` as a substring — also
inside an ordinary word — `extractKeywords` emits that abbreviation as a
standalone keyword: the allow-list is applied by substring containment on
the whole cleaned query, not by whole-word match. -/
theorem mem_ite_append {t : String} {ks l : List String} {c : Prop} [Decidable c]
    (h : t ∈ ks) : t ∈ (if c then ks else ks ++ l) := by
  split
  · exact h
  · exact List.mem_append_left _ h

theorem extractKeywords_cocTerm (query : String) (t : String) (ht : t ∈ cocTerms)
    (h : strContains (cleanedQueryOf query) t = true) : t ∈ extractKeywords query := by
  have hbase : t ∈ addCocTerms (cleanedQueryOf query)
      (((splitWhite (cleanedQueryOf query).data).filter
        (fun w => decide (w.length > 2) && !(stopwords.contains w)))) cocTerms :=
    mem_addCocTerms_self _ t h cocTerms _ ht
  simp only [extractKeywords]
  rcases h' : thMatchStr query with _ | lvl
  · exact hbase
  · exact mem_ite_append hbase

/-- Witness for C10: the substring `th` of the word `the` makes the token
`th` appear in the keyword list. -/
theorem extractKeywords_cocTerm_witness : "th" ∈ extractKeywords "the plan" :=
  extractKeywords_cocTerm "the plan" "th" (by decide) (by decide)

/-! ## C7 / C8: the intent cascade and its parameters -/

theorem upgradeParams_townHallLevel (lq : String) (p : Params) :
    (upgradeParams lq p).townHallLevel = p.townHallLevel := by
  simp only [upgradeParams]
  repeat' split
  all_goals rfl

theorem attackParams_townHallLevel (lq : String) (p : Params) :
    (attackParams lq p).townHallLevel = p.townHallLevel := by
  simp only [attackParams]
  repeat' split
  all_goals rfl

theorem baseParams_townHallLevel (lq : String) (p : Params) :
    (baseParams lq p).townHallLevel = p.townHallLevel := by
  simp only [baseParams]
  repeat' split
  all_goals rfl

theorem resourceParams_townHallLevel (lq : String) (p : Params) :
    (resourceParams lq p).townHallLevel = p.townHallLevel := by
  simp only [resourceParams]
  repeat' split
  all_goals rfl

theorem attackParams_focusTroop (lq : String) (p : Params) (hp : p.focusTroop = none) :
    (attackParams lq p).focusTroop =
      troops.find? (fun troop => strContains lq troop) := by
  cases hf : troops.find? (fun troop => strContains lq troop) with
  | none =>
    simp only [attackParams, hf]
    repeat' split
    all_goals simp [hp]
  | some tr =>
    simp only [attackParams, hf]
    repeat' split
    all_goals rfl

/-- C7:  `analyzeQuery` is total (it is a Lean function, hence never
throws) and classifies intent by the fixed ordered cascade
upgrade-priority, attack-strategy, base-design, resource-management over
the lower-cased text, first match winning and `general` the default;
when no rule matches, no parameter other than the town-hall level is set,
and when the tier regex does not match, the town-hall level itself is
absent (`none`, not a default). -/
theorem analyzeQuery_cascade (query : String) :
    ((analyzeQuery query).intent =
      if upgradePriorityCond (strLower query) then "upgrade_priority"
      else if attackStrategyCond (strLower query) then "attack_strategy"
      else if baseDesignCond (strLower query) then "base_design"
      else if resourceManagementCond (strLower query) then "resource_management"
      else "general") ∧
    ((analyzeQuery query).intent = "general" →
      (analyzeQuery query).params =
        { townHallLevel := (analyzeQuery query).params.townHallLevel }) ∧
    (findTHMatch (strLower query).data = none →
      (analyzeQuery query).params.townHallLevel = none) := by
  refine ⟨?_, ?_, ?_⟩
  · simp only [analyzeQuery]
    split_ifs <;> rfl
  · simp only [analyzeQuery]
    split_ifs <;> intro hg
    · simp at hg
    · simp at hg
    · simp at hg
    · simp at hg
    · cases h0 : findTHMatch (strLower query).data <;> rfl
  · intro h0
    simp only [analyzeQuery, h0]
    split_ifs <;>
      simp [upgradeParams_townHallLevel, attackParams_townHallLevel,
        baseParams_townHallLevel, resourceParams_townHallLevel]

/-- Witness for C7 at a query matching no rule and no tier pattern. -/
theorem analyzeQuery_cascade_witness :
    (analyzeQuery "hello there friend").intent = "general" ∧
    (analyzeQuery "hello there friend").params.townHallLevel = none := by
  have h := analyzeQuery_cascade "hello there friend"
  refine ⟨?_, h.2.2 (by decide)⟩
  rw [h.1]
  decide

/-- C8 (amended):  When `analyzeQuery` assigns the attack-strategy
intent, `params.focusTroop` is the first entry of the fixed `troops`
list—in LIST order—whose name occurs anywhere in the lower-cased query,
regardless of where in the text the names occur. -/
theorem analyzeQuery_focusTroop_list_order (query : String)
    (h : (analyzeQuery query).intent = "attack_strategy") :
    (analyzeQuery query).params.focusTroop =
      troops.find? (fun troop => strContains (strLower query) troop) := by
  simp only [analyzeQuery] at h ⊢
  split_ifs at h ⊢
  · simp at h
  · exact attackParams_focusTroop (strLower query) _
      (by cases h0 : findTHMatch (strLower query).data <;> rfl)
  · simp at h
  · simp at h
  · simp at h

/-- Witness for the amended C8 at a concrete attack query. -/
theorem analyzeQuery_focusTroop_list_order_witness :
    (analyzeQuery "attack with dragon then barbarian").params.focusTroop =
      troops.find?
        (fun troop => strContains (strLower "attack with dragon then barbarian") troop) :=
  analyzeQuery_focusTroop_list_order "attack with dragon then barbarian" (by decide)

/-- Counterexample to C8 as stated: in the query below the unit name
`dragon` occurs first in the text (`firstTroopInText` picks it), yet the
code scans the fixed troop list in list order and returns `barbarian`. -/
theorem analyzeQuery_focusTroop_text_order_counterexample :
    (analyzeQuery "attack with dragon then barbarian").intent = "attack_strategy" ∧
    firstTroopInText (strLower "attack with dragon then barbarian") = some "dragon" ∧
    (analyzeQuery "attack with dragon then barbarian").params.focusTroop =
      some "barbarian" ∧
    ("barbarian" : String) ≠ "dragon" :=
  ⟨by decide, by decide, by decide, by decide⟩

/-- C2 (violated by the code):  The upgrade-priority boost branch of
`retrieveContext` writes a `similarity` field onto the corpus document
objects themselves (the boost filters alias the corpus): after the call
shown here the corpus document carries `similarity = some 0` although it
had none before, so a retrieval call does mutate corpus records, and a
later call with a different query embedding would reuse this stale score
(the `doc.similarity === undefined` guard then skips recomputation). -/
theorem retrieveContext_mutates_corpus :
    (retrieveContext cos0 [] "what to upgrade" qaUpgrade [demoTroopDoc]).2 =
      [{ demoTroopDoc with similarity := some 0 }] ∧
    demoTroopDoc.similarity = none ∧
    ({ demoTroopDoc with similarity := some 0 } : Doc) ≠ demoTroopDoc :=
  ⟨by decide, rfl, by decide⟩

/-- C3 (amended):  The intent boosts merge in the top 3 (respectively
top 2) matching documents drawn from the TH-FILTERED corpus — the output
of `filterByTownHallLevel` — not from the unfiltered corpus: every
document of the boost list computed over the filtered corpus has its
`(id, category)` key present in the candidate list handed to MMR. -/
theorem retrievalCandidates_boost_from_filtered (cos : List Rat → List Rat → Rat)
    (qe : List Rat) (query : String) (qa : QueryAnalysis) (embeddings : List Doc) :
    (∀ it, qa.intent = "upgrade_priority" → qa.params.itemType = some it → it ≠ "" →
      ∀ d ∈ typeBoostList cos qe it (filterByTownHallLevel (thLevelOf qa) embeddings),
        keyOf d ∈ (retrievalCandidates cos qe query qa embeddings).map keyOf) ∧
    (∀ tr, qa.intent = "attack_strategy" → qa.params.focusTroop = some tr → tr ≠ "" →
      ∀ d ∈ troopBoostList cos qe tr (filterByTownHallLevel (thLevelOf qa) embeddings),
        keyOf d ∈ (retrievalCandidates cos qe query qa embeddings).map keyOf) := by
  constructor
  · intro it hI hT hne d hd
    have hcond : (decide (qa.intent = "upgrade_priority") &&
        strTruthy (some it)) = true := by
      rw [hI]; simp [strTruthy, hne]
    simp only [retrievalCandidates, boostStage, hT]
    rw [if_pos hcond]
    by_cases hlen : 0 < (List.filter (typeMatchPred it)
        (filterByTownHallLevel (thLevelOf qa) embeddings)).length
    · rw [if_pos hlen]
      exact key_mem_mergeDedup_right _ hd
    · exfalso
      have hfil : (filterByTownHallLevel (thLevelOf qa) embeddings).filter
          (typeMatchPred it) = [] :=
        List.length_eq_zero.1 (by omega)
      simp [typeBoostList, hfil, sortDocsBy] at hd
  · intro tr hI hT hne d hd
    have hcond1 : ¬((decide (qa.intent = "upgrade_priority") &&
        strTruthy qa.params.itemType) = true) := by
      rw [hI]; simp
    have hcond2 : (decide (qa.intent = "attack_strategy") &&
        strTruthy (some tr)) = true := by
      rw [hI]; simp [strTruthy, hne]
    simp only [retrievalCandidates, boostStage, hT]
    rw [if_neg hcond1, if_pos hcond2]
    by_cases hlen : 0 < (List.filter (troopDocPred tr)
        (filterByTownHallLevel (thLevelOf qa) embeddings)).length
    · rw [if_pos hlen]
      exact key_mem_mergeDedup_right _ hd
    · exfalso
      have hfil : (filterByTownHallLevel (thLevelOf qa) embeddings).filter
          (troopDocPred tr) = [] :=
        List.length_eq_zero.1 (by omega)
      simp [troopBoostList, hfil, sortDocsBy] at hd

/-- Witness for the amended C3: over the singleton troop corpus the boost
list is nonempty and its key reaches the candidate list. -/
theorem retrievalCandidates_boost_from_filtered_witness :
    keyOf { demoTroopDoc with similarity := some 0 } ∈
      (retrievalCandidates cos0 [] "what to upgrade" qaUpgrade [demoTroopDoc]).map keyOf :=
  (retrievalCandidates_boost_from_filtered cos0 [] "what to upgrade" qaUpgrade
      [demoTroopDoc]).1
    "troop" rfl rfl (by decide) { demoTroopDoc with similarity := some 0 } (by decide)

/-- Counterexample to C3 as stated: with tier filtering active (five exact
`th9` documents), the only type-matching document of the UNfiltered corpus
is the troop document — the reading of the spec would merge it in — but the
code draws the boost pool from the filtered corpus, so its key appears
neither among the candidates nor in the final result. -/
theorem boost_from_unfiltered_counterexample :
    (typeBoostList cos0 [] "troop" demoCorpus6).map keyOf = [keyOf demoTroopDoc] ∧
    keyOf demoTroopDoc ∉
      (retrievalCandidates cos0 [] "what to upgrade" qaUpgrade9 demoCorpus6).map keyOf ∧
    keyOf demoTroopDoc ∉
      ((retrieveContext cos0 [] "what to upgrade" qaUpgrade9 demoCorpus6).1).map keyOf :=
  ⟨by decide, by decide, by decide⟩

/-- C9:  On the empty corpus, `retrieveContext` returns the empty list
(the model is a total function: no exception), and `generateAdvisorPrompt`
over the empty document list renders an empty context block while still
carrying the analysed intent and parameters in the prompt. -/
theorem empty_corpus_retrieval_prompt (cos : List Rat → List Rat → Rat) (qe : List Rat)
    (query : String) (qa : QueryAnalysis) :
    (retrieveContext cos qe query qa []).1 = [] ∧
    contextInfoOf [] = "" ∧
    strContains (generateAdvisorPrompt query qa [])
      ("- Intent: " ++ underscoreToSpace qa.intent) = true ∧
    (∀ tr, qa.params.focusTroop = some tr → tr ≠ "" →
      strContains (generateAdvisorPrompt query qa [])
        ("- Focus Troop: " ++ tr) = true) := by
  refine ⟨?_, rfl, ?_, ?_⟩
  · show applyMMR cos (retrievalCandidates cos qe query qa []) qe 5 (mkRat 7 10) = []
    rw [retrievalCandidates_nil]
    rfl
  · simp only [generateAdvisorPrompt, strAppend_assoc]
    repeat
      first
      | exact strContains_prefix_append _ _ _
      | apply strContains_append_of_right
  · intro tr htr hne
    simp only [generateAdvisorPrompt, strAppend_assoc, optLine, htr, if_neg hne]
    repeat
      first
      | exact strContains_prefix_append _ _ _
      | apply strContains_append_of_right

/-- Witness for C9 at a concrete attack-strategy analysis. -/
theorem empty_corpus_retrieval_prompt_witness :
    (retrieveContext cos0 [] "how to attack" qaAttackW []).1 = [] ∧
    strContains (generateAdvisorPrompt "how to attack" qaAttackW [])
      ("- Focus Troop: " ++ "dragon") = true := by
  have h := empty_corpus_retrieval_prompt cos0 [] "how to attack" qaAttackW
  exact ⟨h.1, h.2.2.2 "dragon" rfl (by decide)⟩
